import Mathlib

/-!
Verification of the Google-Alerts-to-SmartSuite webhook (src/app.py) against
its natural-language specification.  The Python source is shallowly embedded:
pure text transformations become Lean functions on `List Char` (Python `str`
is a sequence of code points, as is `String.data`), the regular expressions
the source applies are embedded either as direct recursive scanners (for the
fixed two/three-character substitution patterns of `fix_text_spacing`) or via
a small backtracking matcher mirroring CPython `re` search order, and every
external effect (HTTP, the Anthropic client, `json.loads`) is a parameter of
the embedded function.
-/

namespace App

/-! ## Character classes (ASCII ranges, as the regex classes of the source) -/

/-- `[a-z]` of the source's patterns. -/
def isLowerA (c : Char) : Bool := 97 ≤ c.toNat && c.toNat ≤ 122

/-- `[A-Z]` of the source's patterns. -/
def isUpperA (c : Char) : Bool := 65 ≤ c.toNat && c.toNat ≤ 90

/-- `[a-zA-Z]`. -/
def isLetterA (c : Char) : Bool := isLowerA c || isUpperA c

/-- `[0-9]`, the regex `\d` for the source's ASCII inputs. -/
def isDigitA (c : Char) : Bool := 48 ≤ c.toNat && c.toNat ≤ 57

/-- Python's `\s` (and `str.strip`) whitespace: the six ASCII whitespace
characters plus the Unicode whitespace code points `\s` accepts for `str`
patterns. -/
def isWS (c : Char) : Bool :=
  let n := c.toNat
  n == 32 || n == 9 || n == 10 || n == 13 || n == 11 || n == 12 ||
  (28 ≤ n && n ≤ 31) || n == 133 || n == 160 || n == 5760 ||
  (8192 ≤ n && n ≤ 8202) || n == 8232 || n == 8233 || n == 8239 ||
  n == 8287 || n == 12288

/-- The regex `\w` (word character) for ASCII inputs: `[a-zA-Z0-9_]`. -/
def isWordChar (c : Char) : Bool := isLetterA c || isDigitA c || c.toNat == 95

/-! ## `fix_text_spacing` (src/app.py lines 246-260)

Each `re.sub` of the source scans left to right and, at a match, consumes the
matched characters and resumes after them; every pattern here matches a fixed
number of characters, so each substitution is a direct recursive scanner. -/

/-- `re.sub(r'([a-z])([A-Z])', r'\1 \2', text)`: insert a space between a
lowercase letter and an immediately following uppercase letter. -/
def subLowUp : List Char → List Char
  | [] => []
  | [a] => [a]
  | a :: b :: r =>
    if isLowerA a && isUpperA b then a :: ' ' :: b :: subLowUp r
    else a :: subLowUp (b :: r)

/-- `re.sub(r'([a-zA-Z])([A-Z][a-z])', r'\1 \2', text)`: insert a space
between a letter and an uppercase letter that starts a lowercase run. -/
def subWordBoundarySplit : List Char → List Char
  | [] => []
  | [a] => [a]
  | [a, b] => [a, b]
  | a :: b :: c :: r =>
    if isLetterA a && isUpperA b && isLowerA c then
      a :: ' ' :: b :: c :: subWordBoundarySplit r
    else a :: subWordBoundarySplit (b :: c :: r)

/-- The stepper of `re.sub(stem + r'([A-Z])', stem + r' \1', text)` for a
literal `stem`: when `stem` followed by an uppercase letter starts here,
splice in the space and resume after the match, else move one character.
The fuel only bounds the recursion (a step always consumes at least one
character, so `length + 1` suffices); exhausted fuel leaves the rest
unchanged. -/
def subStemGo (stem : List Char) : Nat → List Char → List Char
  | 0, l => l
  | _ + 1, [] => []
  | fuel + 1, a :: r =>
    if stem.isPrefixOf (a :: r) then
      match (a :: r).drop stem.length with
      | u :: rest =>
        if isUpperA u then stem ++ ' ' :: u :: subStemGo stem fuel rest
        else a :: subStemGo stem fuel r
      | [] => a :: subStemGo stem fuel r
    else a :: subStemGo stem fuel r

/-- `re.sub(stem + r'([A-Z])', stem + r' \1', text)` ("Company", "Expands",
"Announces", "Million", "Manufacturing"). -/
def subStem (stem : List Char) (l : List Char) : List Char :=
  subStemGo stem (l.length + 1) l

/-- `re.sub(r'\s+', ' ', text)`: each maximal whitespace run becomes one
space (the greedy `\s+` matches the whole run).  Scanning two characters
at a time: a whitespace character followed by more whitespace is dropped,
the run's last whitespace character becomes the single space. -/
def collapseWS : List Char → List Char
  | [] => []
  | [a] => if isWS a then [' '] else [a]
  | a :: b :: r =>
    if isWS a && isWS b then collapseWS (b :: r)
    else (if isWS a then ' ' else a) :: collapseWS (b :: r)

/-- `fix_text_spacing` (lines 246-260) on the underlying character list:
the seven substitutions in source order, then whitespace collapsing. -/
def fixTextSpacingL (l : List Char) : List Char :=
  collapseWS
    (subStem "Manufacturing".data
      (subStem "Million".data
        (subStem "Announces".data
          (subStem "Expands".data
            (subStem "Company".data
              (subWordBoundarySplit (subLowUp l)))))))

/-- `fix_text_spacing(text)` (src/app.py lines 246-260). -/
def fix_text_spacing (s : String) : String := ⟨fixTextSpacingL s.data⟩

/-! ## A small backtracking regex matcher

The remaining patterns of the source (`extract_company_name`,
`extract_location_from_headline`, `extract_job_numbers`,
`create_detailed_summary`) quantify only over single-character classes,
literals, alternations, greedy/lazy repetition, `\b` and `^`, with at most
one capturing group.  `mtch` enumerates the end positions a subpattern can
reach in exactly CPython's backtracking order (alternation left first,
greedy repetition longest first, lazy shortest first), so the head of the
list is the match `re.search` reports.  The fuel argument only bounds the
recursion depth; the callers pass a fuel larger than any reachable depth
(every repetition body consumes at least one character, so the depth is at
most the pattern size times the remaining input, which the fuel exceeds). -/

inductive RE where
  | cls (p : Char → Bool)
  | eps
  | seq (a b : RE)
  | alt (a b : RE)
  | rep (r : RE) (lzy : Bool)
  | grp (r : RE)
  | bnd
  | bos
deriving Inhabited

namespace RE

def size : RE → Nat
  | cls _ => 1
  | eps => 1
  | seq a b => 1 + a.size + b.size
  | alt a b => 1 + a.size + b.size
  | rep r _ => 1 + r.size
  | grp r => 1 + r.size
  | bnd => 1
  | bos => 1

end RE

/-- Is there a word character at index `i`?  (False past either end.) -/
def wordAt (s : List Char) (i : Nat) : Bool :=
  match s.get? i with
  | some c => isWordChar c
  | none => false

/-- The regex `\b`: a word boundary before index `i`. -/
def wordBoundary (s : List Char) (i : Nat) : Bool :=
  match i with
  | 0 => wordAt s 0
  | j + 1 => wordAt s j != wordAt s (j + 1)

/-- All end positions (with the single group's captured span) a subpattern
can reach from position `i`, in CPython's backtracking priority order. -/
def mtch (s : List Char) : Nat → RE → Nat → Option (Nat × Nat) →
    List (Nat × Option (Nat × Nat))
  | 0, _, _, _ => []
  | fuel + 1, re, i, cap =>
    match re with
    | .cls p =>
      match s.get? i with
      | some c => if p c then [(i + 1, cap)] else []
      | none => []
    | .eps => [(i, cap)]
    | .seq a b =>
      (mtch s fuel a i cap).flatMap fun jc => mtch s fuel b jc.1 jc.2
    | .alt a b => mtch s fuel a i cap ++ mtch s fuel b i cap
    | .rep r lzy =>
      let deeper := (mtch s fuel r i cap).flatMap fun jc =>
        if i < jc.1 then mtch s fuel (.rep r lzy) jc.1 jc.2 else []
      if lzy then (i, cap) :: deeper else deeper ++ [(i, cap)]
    | .grp r => (mtch s fuel r i cap).map fun jc => (jc.1, some (i, jc.1))
    | .bnd => if wordBoundary s i then [(i, cap)] else []
    | .bos => if i == 0 then [(i, cap)] else []

/-- Fuel that exceeds any reachable backtracking depth for the patterns of
the source (whose repetition bodies all consume at least one character). -/
def bigFuel (re : RE) (s : List Char) : Nat :=
  (s.length + 2) * (re.size + 2)

/-- `re.search` from start position `p`: the leftmost position whose match
attempt succeeds, with the first (highest-priority) result there, as
`(start, end, group-1 span)`. -/
def searchFrom (re : RE) (s : List Char) : Nat → Nat →
    Option (Nat × Nat × Option (Nat × Nat))
  | 0, _ => none
  | fuel + 1, p =>
    if p ≤ s.length then
      match mtch s (bigFuel re s) re p none with
      | ec :: _ => some (p, ec.1, ec.2)
      | [] => searchFrom re s fuel (p + 1)
    else none

/-- `re.search(pattern, s)`: leftmost match. -/
def search (re : RE) (s : List Char) : Option (Nat × Nat × Option (Nat × Nat)) :=
  searchFrom re s (s.length + 2) 0

/-- The slice `s[a:b]`. -/
def sliceL (s : List Char) (a b : Nat) : List Char := (s.drop a).take (b - a)

/-- `re.sub(pattern, '', s)`: remove every (leftmost, non-overlapping) match.
All patterns the source uses with an empty replacement match at least one
character; the empty-match branch mirrors `re.sub`'s advance-by-one. -/
def reSubEmpty (re : RE) (s : List Char) : List Char :=
  go (s.length + 2) 0
where
  go : Nat → Nat → List Char
    | 0, p => s.drop p
    | fuel + 1, p =>
      match searchFrom re s (s.length + 2) p with
      | none => s.drop p
      | some (i, e, _) =>
        if p ≤ i && i < e then sliceL s p i ++ go fuel e
        else sliceL s p i ++ (s.drop i).take 1 ++ go fuel (i + 1)

/-! ### Pattern construction helpers -/

/-- A case-sensitive literal character. -/
def chS (c : Char) : RE := .cls fun x => x == c

/-- A literal character under `re.IGNORECASE`. -/
def chIC (c : Char) : RE := .cls fun x => x.toLower == c.toLower

/-- A literal string under `re.IGNORECASE`. -/
def strIC (t : String) : RE :=
  (t.data.map chIC).foldr RE.seq .eps

/-- Alternation `(?:a|b|...)`, left to right. -/
def altL (rs : List RE) : RE :=
  match rs with
  | [] => .eps
  | [r] => r
  | r :: rest => .alt r (altL rest)

/-- `X?` greedy. -/
def optG (r : RE) : RE := .alt r .eps

/-- `X*` greedy. -/
def starG (r : RE) : RE := .rep r false

/-- `X+` greedy. -/
def plusG (r : RE) : RE := .seq r (.rep r false)

/-- `X+?` lazy. -/
def plusL (r : RE) : RE := .seq r (.rep r true)

/-- Chain a list of pieces in sequence. -/
def seqL (rs : List RE) : RE := rs.foldr RE.seq .eps

/-! ## `extract_company_name` (src/app.py lines 427-450) -/

/-- `[A-Z]` under `re.IGNORECASE`: any ASCII letter. -/
def upperIC : RE := .cls isLetterA

/-- The class `[A-Za-z0-9\s&\-\.\']` of the company patterns. -/
def companyCls : RE := .cls fun c =>
  isLetterA c || isDigitA c || isWS c || c == '&' || c == '-' || c == '.' ||
    c == '\''

/-- `\s` as a pattern piece. -/
def wsCls : RE := .cls isWS

/-- `\d` as a pattern piece. -/
def digitCls : RE := .cls isDigitA

/-- A suffix word with an optional trailing literal dot (`Inc\.?` etc.). -/
def withDot (t : String) : RE := .seq (strIC t) (optG (chS '.'))

/-- The corporate-suffix alternation of the first company pattern
(source line 434). -/
def companySuffixAlt : RE := altL
  [withDot "Inc", strIC "LLC", withDot "Corp", strIC "Corporation",
   strIC "Company", withDot "Co", withDot "Ltd", strIC "Limited",
   strIC "Group", strIC "Holdings", strIC "Industries",
   strIC "Manufacturing", strIC "Logistics", strIC "Properties",
   strIC "Partners", strIC "Enterprises", strIC "Systems",
   strIC "Technologies", strIC "Solutions"]

/-- Pattern 1: `([A-Z][A-Za-z0-9\s&\-\.\']+?)\s*(?:Inc\.?|...|Solutions)\b`. -/
def companyPat1 : RE :=
  seqL [.grp (.seq upperIC (plusL companyCls)), starG wsCls, companySuffixAlt,
        .bnd]

/-- Pattern 2:
`^([A-Z][A-Za-z0-9\s&\-\.\']+?)\s+(?:Announces|...|Will Build)`. -/
def companyPat2 : RE :=
  seqL [.bos, .grp (.seq upperIC (plusL companyCls)), plusG wsCls,
        altL [strIC "Announces", strIC "Expands", strIC "Opens",
              strIC "Plans", strIC "Invests", strIC "Develops",
              strIC "Acquires", strIC "to Build", strIC "Will Build"]]

/-- Pattern 3: `["\']([A-Z][A-Za-z0-9\s&\-\.\']+?)["\']`. -/
def companyPat3 : RE :=
  seqL [.cls (fun c => c == '"' || c == '\''),
        .grp (.seq upperIC (plusL companyCls)),
        .cls (fun c => c == '"' || c == '\'')]

/-- Python `str.strip()`. -/
def stripL (l : List Char) : List Char :=
  ((l.dropWhile isWS).reverse.dropWhile isWS).reverse

/-- The loop body of `extract_company_name`: try each pattern in order; on a
match, strip and whitespace-collapse group 1 and accept it when its length is
strictly between 3 and 50, otherwise move to the next pattern. -/
def companyFromPatterns (t : List Char) : List RE → List Char
  | [] => []
  | p :: rest =>
    match search p t with
    | some (_, _, some ab) =>
      let company := collapseWS (stripL (sliceL t ab.1 ab.2))
      if 3 < company.length && company.length < 50 then company
      else companyFromPatterns t rest
    | _ => companyFromPatterns t rest

/-- `extract_company_name(text)` (src/app.py lines 427-450). -/
def extract_company_name (text : String) : String :=
  let t := fixTextSpacingL text.data
  ⟨companyFromPatterns t [companyPat1, companyPat2, companyPat3]⟩

/-! ## `extract_location_from_headline` (src/app.py lines 452-492) -/

/-- The company-suffix removal pattern of line 458 (shorter alternation, no
trailing `\b`):
`([A-Z][A-Za-z0-9\s&\-\.\']+?)\s*(?:Inc\.?|LLC|Corp\.?|Corporation|Company|Co\.?|Ltd\.?)`. -/
def locSuffixPat : RE :=
  seqL [.grp (.seq upperIC (plusL companyCls)), starG wsCls,
        altL [withDot "Inc", strIC "LLC", withDot "Corp", strIC "Corporation",
              strIC "Company", withDot "Co", withDot "Ltd"]]

/-- The stop-word removal pattern of line 459:
`\b(?:Announces|Expands|Opens|Plans|Million|Manufacturing|Expansion|Operations|Facility)\b`. -/
def stopWordsPat : RE :=
  seqL [.bnd,
        altL [strIC "Announces", strIC "Expands", strIC "Opens",
              strIC "Plans", strIC "Million", strIC "Manufacturing",
              strIC "Expansion", strIC "Operations", strIC "Facility"],
        .bnd]

/-- The per-state search pattern of line 482:
`([A-Z][a-zA-Z\s]+?),?\s*{state_form}\b`. -/
def statePat (form : String) : RE :=
  seqL [.grp (.seq upperIC (plusL (.cls fun c => isLetterA c || isWS c))),
        optG (chS ','), starG wsCls, strIC form, .bnd]

/-- `re.sub(r'\b\d+\b', '', city)` of line 487. -/
def digitWordPat : RE := seqL [.bnd, plusG digitCls, .bnd]

/-- The `states` table of lines 462-476, in the dictionary's insertion
order (Python preserves it during iteration). -/
def statesTable : List (String × String) :=
  [("AL", "Alabama"), ("AK", "Alaska"), ("AZ", "Arizona"), ("AR", "Arkansas"),
   ("CA", "California"), ("CO", "Colorado"), ("CT", "Connecticut"),
   ("DE", "Delaware"), ("FL", "Florida"), ("GA", "Georgia"), ("HI", "Hawaii"),
   ("ID", "Idaho"), ("IL", "Illinois"), ("IN", "Indiana"), ("IA", "Iowa"),
   ("KS", "Kansas"), ("KY", "Kentucky"), ("LA", "Louisiana"), ("ME", "Maine"),
   ("MD", "Maryland"), ("MA", "Massachusetts"), ("MI", "Michigan"),
   ("MN", "Minnesota"), ("MS", "Mississippi"), ("MO", "Missouri"),
   ("MT", "Montana"), ("NE", "Nebraska"), ("NV", "Nevada"),
   ("NH", "New Hampshire"), ("NJ", "New Jersey"), ("NM", "New Mexico"),
   ("NY", "New York"), ("NC", "North Carolina"), ("ND", "North Dakota"),
   ("OH", "Ohio"), ("OK", "Oklahoma"), ("OR", "Oregon"),
   ("PA", "Pennsylvania"), ("RI", "Rhode Island"), ("SC", "South Carolina"),
   ("SD", "South Dakota"), ("TN", "Tennessee"), ("TX", "Texas"),
   ("UT", "Utah"), ("VT", "Vermont"), ("VA", "Virginia"),
   ("WA", "Washington"), ("WV", "West Virginia"), ("WI", "Wisconsin"),
   ("WY", "Wyoming")]

/-- One `state_form` attempt of the inner loop (lines 481-490): on a match,
strip group 1, remove whole-number words, collapse whitespace, strip, and
return `"City, FullStateName"` when the city is longer than 2 characters. -/
def tryStateForm (t : List Char) (form full : String) : Option (List Char) :=
  match search (statePat form) t with
  | some (_, _, some ab) =>
    let city := stripL (sliceL t ab.1 ab.2)
    let city := reSubEmpty digitWordPat city
    let city := stripL (collapseWS city)
    if city ≠ [] && 2 < city.length then some (city ++ (", " ++ full).data)
    else none
  | _ => none

/-- The state loop of lines 479-490: abbreviation before full name, first
match wins. -/
def stateLoop (t : List Char) : List (String × String) → List Char
  | [] => []
  | (abbr, full) :: rest =>
    match tryStateForm t abbr full with
    | some r => r
    | none =>
      match tryStateForm t full full with
      | some r => r
      | none => stateLoop t rest

/-- `extract_location_from_headline(text)` (src/app.py lines 452-492). -/
def extract_location_from_headline (text : String) : String :=
  let t := fixTextSpacingL text.data
  let t := reSubEmpty locSuffixPat t
  let t := reSubEmpty stopWordsPat t
  ⟨stateLoop t statesTable⟩

/-! ## `extract_job_numbers` (src/app.py lines 494-508) -/

/-- `\d{1,3}(?:,\d{3})*`, the number shape of all four job patterns. -/
def jobNum : RE :=
  .seq (seqL [digitCls, optG (.seq digitCls (optG digitCls))])
    (starG (seqL [chS ',', digitCls, digitCls, digitCls]))

/-- Pattern 1: `(\d{1,3}(?:,\d{3})*)\s*(?:new\s+)?(?:jobs?|positions?|employees?|workers?)`. -/
def jobsPat1 : RE :=
  seqL [.grp jobNum, starG wsCls, optG (.seq (strIC "new") (plusG wsCls)),
        altL [.seq (strIC "job") (optG (chIC 's')),
              .seq (strIC "position") (optG (chIC 's')),
              .seq (strIC "employee") (optG (chIC 's')),
              .seq (strIC "worker") (optG (chIC 's'))]]

/-- Pattern 2: `(?:create|creating|add|adding|hire|hiring)\s+(?:up\s+to\s+)?(\d{1,3}(?:,\d{3})*)`. -/
def jobsPat2 : RE :=
  seqL [altL [strIC "create", strIC "creating", strIC "add", strIC "adding",
              strIC "hire", strIC "hiring"],
        plusG wsCls,
        optG (seqL [strIC "up", plusG wsCls, strIC "to", plusG wsCls]),
        .grp jobNum]

/-- Pattern 3: `(?:employ|employing)\s+(?:up\s+to\s+)?(\d{1,3}(?:,\d{3})*)`. -/
def jobsPat3 : RE :=
  seqL [altL [strIC "employ", strIC "employing"],
        plusG wsCls,
        optG (seqL [strIC "up", plusG wsCls, strIC "to", plusG wsCls]),
        .grp jobNum]

/-- Pattern 4: `workforce\s+of\s+(\d{1,3}(?:,\d{3})*)`. -/
def jobsPat4 : RE :=
  seqL [strIC "workforce", plusG wsCls, strIC "of", plusG wsCls, .grp jobNum]

/-- The loop of `extract_job_numbers`: first pattern with a match wins, and
the raw group 1 is returned. -/
def jobsFromPatterns (t : List Char) : List RE → List Char
  | [] => []
  | p :: rest =>
    match search p t with
    | some (_, _, some ab) => sliceL t ab.1 ab.2
    | _ => jobsFromPatterns t rest

/-- `extract_job_numbers(text)` (src/app.py lines 494-508). -/
def extract_job_numbers (text : String) : String :=
  ⟨jobsFromPatterns text.data [jobsPat1, jobsPat2, jobsPat3, jobsPat4]⟩

/-! ## `extract_google_url` (src/app.py lines 262-270) -/

/-- Python's substring test `needle in haystack`. -/
def containsSub (needle : List Char) : List Char → Bool
  | [] => needle.isPrefixOf []
  | a :: r => needle.isPrefixOf (a :: r) || containsSub needle r

/-- The value of a hex digit. -/
def hexVal (c : Char) : Option Nat :=
  if 48 ≤ c.toNat && c.toNat ≤ 57 then some (c.toNat - 48)
  else if 97 ≤ c.toNat && c.toNat ≤ 102 then some (c.toNat - 87)
  else if 65 ≤ c.toNat && c.toNat ≤ 70 then some (c.toNat - 55)
  else none

/-- `urllib.parse.unquote` for percent-encoded ASCII: each valid `%XX`
becomes the character with that code; an invalid escape stays as-is. -/
def unquoteL : List Char → List Char
  | '%' :: h1 :: h2 :: r =>
    match hexVal h1, hexVal h2 with
    | some a, some b => Char.ofNat (16 * a + b) :: unquoteL r
    | _, _ => '%' :: unquoteL (h1 :: h2 :: r)
  | a :: r => a :: unquoteL r
  | [] => []

/-- `re.search(r'url=([^&]+)', url)`: the leftmost occurrence of `url=`
followed by at least one non-`&` character, capturing the maximal
non-`&` run after it. -/
def urlParamSearch : List Char → Option (List Char)
  | [] => none
  | a :: r =>
    if "url=".data.isPrefixOf (a :: r) then
      let cap := ((a :: r).drop 4).takeWhile (· ≠ '&')
      if cap ≠ [] then some cap else urlParamSearch r
    else urlParamSearch r

/-- `extract_google_url(url)` (src/app.py lines 262-270): when the href
contains the redirect indicator `google.com/url?`, decode the `url` query
parameter (or fail); otherwise pass through an `http`-prefixed href; else no
URL. -/
def extract_google_url (url : String) : Option String :=
  if containsSub "google.com/url?".data url.data then
    match urlParamSearch url.data with
    | some cap => some ⟨unquoteL cap⟩
    | none => none
  else if "http".data.isPrefixOf url.data then some url
  else none

/-- An uppercase hex digit, for constructing percent-encoded test URLs. -/
def hexDigitU (n : Nat) : Char := if n < 10 then Char.ofNat (48 + n) else Char.ofNat (55 + n)

/-- Percent-encode every character outside `urllib.parse.quote`'s
always-safe set (letters, digits, `_.-~`), as `quote(target, safe='')`
does for ASCII input. -/
def percentEncode (l : List Char) : List Char :=
  l.flatMap fun c =>
    if isLetterA c || isDigitA c || c == '_' || c == '.' || c == '-' || c == '~'
    then [c]
    else ['%', hexDigitU (c.toNat / 16), hexDigitU (c.toNat % 16)]

/-- A Google-Alerts-style redirect URL wrapping the percent-encoded target
in its `url` query parameter (the shape the Redirect Resolver unwraps). -/
def redirectWrap (target : String) : String :=
  "https://www.google.com/url?rct=j&sa=t&url=" ++ ⟨percentEncode target.data⟩ ++ "&ct=ga"

/-! ## `fetch_article_with_jina` (src/app.py lines 272-323)

The HTTP call is the function's only effect; it is a parameter: either the
request raised, or it returned a status code and a body. -/

/-- The outcome of `requests.get` on the Jina Reader URL. -/
inductive FetchOutcome where
  | exc (msg : String)
  | resp (statusCode : Nat) (text : String)

/-- The `article_data` dictionary of the source. -/
structure ArticleData where
  content : String
  title : String
  success : Bool
deriving Repr, DecidableEq

/-- `re.search(r'^#\s+(.+)$', content, re.MULTILINE)`, group 1: at the first
line start holding `#` followed by whitespace, the greedy `\s+` takes the
maximal whitespace run (which may cross line breaks) and `(.+)$` the
remainder of the line it lands on; when the run reaches the end of the
string the `\s+` backs off so `(.+)` keeps at least one non-newline
character. -/
def titleGroup (s : List Char) : Option (List Char) :=
  go (s.length + 1) true s
where
  /-- Greedy backoff at end of string: `\s+` gives up just enough that
  `(.+)` keeps the run's last non-newline character (everything after that
  character is newlines, so `(.+)` captures exactly it); the run's first
  character cannot be given up, `\s+` needs one. -/
  backoff (run : List Char) : Option (List Char) :=
    match run.reverse.dropWhile (· == '\n') with
    | [] => none
    | [_] => none
    | c :: _ :: _ => some [c]
  go : Nat → Bool → List Char → Option (List Char)
    | 0, _, _ => none
    | _ + 1, _, [] => none
    | fuel + 1, atStart, a :: r =>
      if atStart && a == '#' then
        let run := r.takeWhile isWS
        let rest := r.dropWhile isWS
        if run ≠ [] then
          match rest with
          | _ :: _ => some (rest.takeWhile (· ≠ '\n'))
          | [] => backoff run
        else go fuel ((a :: r).head? == some '\n') ((a :: r).drop 1) |>.orElse
          fun _ => none
      else
        -- no line-start `#` here: the next candidate is the next line start
        let afterLine := (a :: r).dropWhile (· ≠ '\n')
        match afterLine with
        | _ :: tl => go fuel true tl
        | [] => none

/-- `re.sub(r'^#+\s+', '', content, flags=re.MULTILINE)`: at each line
start, remove a run of `#` and the following (maximal, possibly
line-crossing) whitespace run; other lines pass through. `atStart` tracks
whether the scan position follows a newline (or is the origin). -/
def stripHashHeaders (s : List Char) : List Char :=
  go (s.length + 1) true s
where
  go : Nat → Bool → List Char → List Char
    | 0, _, l => l
    | _ + 1, _, [] => []
    | fuel + 1, atStart, a :: r =>
      if atStart && a == '#' then
        let hashes := (a :: r).takeWhile (· == '#')
        let afterH := (a :: r).drop hashes.length
        let run := afterH.takeWhile isWS
        let rest := afterH.drop run.length
        if run ≠ [] then go fuel (run.getLast? == some '\n') rest
        else
          let line := (a :: r).takeWhile (· ≠ '\n')
          let tail := (a :: r).drop line.length
          match tail with
          | nl :: tl => line ++ nl :: go fuel true tl
          | [] => line
      else
        let line := (a :: r).takeWhile (· ≠ '\n')
        let tail := (a :: r).drop line.length
        match tail with
        | nl :: tl => line ++ nl :: go fuel true tl
        | [] => line

/-- `re.sub(r'\n{3,}', '\n\n', content)`: each maximal newline run of three
or more becomes exactly two. -/
def squeezeNewlines (s : List Char) : List Char :=
  go (s.length + 1) s
where
  go : Nat → List Char → List Char
    | 0, l => l
    | _ + 1, [] => []
    | fuel + 1, a :: r =>
      if a == '\n' then
        let run := (a :: r).takeWhile (· == '\n')
        let rest := (a :: r).drop run.length
        (if 3 ≤ run.length then ['\n', '\n'] else run) ++ go fuel rest
      else a :: go fuel r

/-- The content cleaning of lines 301-305 applied to a 200 response body. -/
def cleanJinaContent (text : String) : String :=
  ⟨squeezeNewlines (stripHashHeaders text.data)⟩

/-- `fetch_article_with_jina(url)` (src/app.py lines 272-323), with the
HTTP outcome as a parameter.  `success` is set only when the cleaned
content is non-empty and longer than 100 characters; every failure path
stores a descriptive placeholder in `content`. -/
def fetch_article_with_jina (url : String) (o : FetchOutcome) : ArticleData :=
  match o with
  | .exc msg =>
    { content := "Could not fetch article content - Error: " ++ msg,
      title := "", success := false }
  | .resp statusCode text =>
    if statusCode == 200 then
      let title : String :=
        match titleGroup text.data with
        | some t => ⟨stripL t⟩
        | none => ""
      let content := cleanJinaContent text
      if content ≠ "" && 100 < content.length then
        { content := ⟨content.data.take 8000⟩, title := title, success := true }
      else
        { content := "Could not fetch article content - website may be blocking access.",
          title := title, success := false }
    else
      { content := "Could not fetch article content - Jina Reader returned error "
          ++ toString statusCode,
        title := "", success := false }

/-! ## `create_detailed_summary` (src/app.py lines 510-585) -/

/-- Python `str.lower()` on the ASCII range. -/
def lowerL (l : List Char) : List Char := l.map Char.toLower

/-- The company fallback pattern of line 527:
`^([A-Z][A-Za-z0-9\s&\-\.\']+?)\s+(?:Announces|Expands|Opens)` (IGNORECASE). -/
def summaryCompanyPat : RE :=
  seqL [.bos, .grp (.seq upperIC (plusL companyCls)), plusG wsCls,
        altL [strIC "Announces", strIC "Expands", strIC "Opens"]]

/-- The investment pattern of line 571:
`\$(\d+(?:,\d+)*(?:\.\d+)?)\s*(million|billion)?` (IGNORECASE); the source
uses the whole match `group(0)`. -/
def investmentPat : RE :=
  seqL [chS '$', plusG digitCls, starG (.seq (chS ',') (plusG digitCls)),
        optG (.seq (chS '.') (plusG digitCls)), starG wsCls,
        optG (altL [strIC "million", strIC "billion"])]

/-- The jobs pattern of line 577:
`(\d+(?:,\d+)*)\s*(?:new\s+)?(?:jobs?|positions?)` (IGNORECASE); the source
uses the whole match `group(0)`. -/
def summaryJobsPat : RE :=
  seqL [plusG digitCls, starG (.seq (chS ',') (plusG digitCls)), starG wsCls,
        optG (.seq (strIC "new") (plusG wsCls)),
        altL [.seq (strIC "job") (optG (chIC 's')),
              .seq (strIC "position") (optG (chIC 's'))]]

/-- `create_detailed_summary(headline, company, location, content)`
(src/app.py lines 510-585): the deterministic template assembly used when
the AI path is unavailable. -/
def create_detailed_summary (headline company location content : String) :
    String :=
  let headline := fix_text_spacing headline
  if content == "" || containsSub "Could not fetch".data content.data then
    "Unable to fetch full article content. Based on the headline: " ++ headline
  else
    let low := lowerL headline.data
    let summary :=
      if company ≠ "" then company ++ " "
      else
        match search summaryCompanyPat headline.data with
        | some (_, _, some ab) =>
          String.mk (stripL (sliceL headline.data ab.1 ab.2)) ++ " "
        | _ => "The company "
    let summary := summary ++
      (if containsSub "expands".data low then "is expanding its operations "
       else if containsSub "announces".data low &&
           containsSub "expansion".data low then
         "has announced plans for a major expansion "
       else if containsSub "opens".data low then "is opening a new facility "
       else if containsSub "invests".data low then
         "is making a significant investment "
       else if containsSub "develops".data low then
         "is developing new facilities "
       else "has announced new industrial development ")
    let summary := summary ++
      (if containsSub "warehouse".data low then "with a new warehouse facility "
       else if containsSub "distribution".data low then
         "with a distribution center "
       else if containsSub "manufacturing".data low then
         "with manufacturing operations "
       else if containsSub "logistics".data low then
         "with logistics facilities "
       else "")
    let summary := summary ++
      (if location ≠ "" then "in " ++ location ++ ". "
       else
         let loc := extract_location_from_headline headline
         if loc ≠ "" then "in " ++ loc ++ ". " else "at a new location. ")
    let summary := summary ++
      (match search investmentPat headline.data with
       | some (i, e, _) =>
         "The project represents an investment of "
           ++ String.mk (sliceL headline.data i e) ++ ". "
       | none => "")
    let summary := summary ++
      (match search summaryJobsPat headline.data with
       | some (i, e, _) =>
         "The expansion is expected to create "
           ++ String.mk (sliceL headline.data i e) ++ ". "
       | none => "")
    let summary := summary ++
      "Additional facility details require access to the full article content."
    ⟨stripL summary.data⟩

/-! ## `extract_all_info_with_ai` (src/app.py lines 325-425)

The Anthropic call and `json.loads` are external: the call's outcome (an
exception or the reply text) and the JSON decoder are parameters.  The
decoder returns the decoded object's string entries, or `none` when
decoding raises; the source's `try`/`except` turns every such failure into
the deterministic fallback. -/

/-- The `{'company': ..., 'address': ..., 'jobs': ..., 'summary': ...}`
result of the Field Extractor. -/
structure ExtractedFields where
  company : String
  address : String
  jobs : String
  summary : String
deriving Repr, DecidableEq

/-- The deterministic fallback dictionary built at lines 328-333 and
420-425. -/
def fallbackFields (headline content : String) : ExtractedFields :=
  { company := extract_company_name headline,
    address := extract_location_from_headline headline,
    jobs := extract_job_numbers headline,
    summary := create_detailed_summary headline "" "" content }

/-- `has_content` of line 337: `content and len(content) > 200 and
"Could not fetch" not in content`. -/
def hasContentB (content : String) : Bool :=
  content ≠ "" && 200 < content.length &&
    !(containsSub "Could not fetch".data content.data)

/-- `re.search(r'\{[^}]+\}', response_text, re.DOTALL)`, whole match: from
a `{`, the greedy `[^}]+` takes the maximal run of non-`}` characters,
which must be non-empty and followed by `}`; the leftmost position where
this succeeds wins. -/
def jsonSliceSearch : List Char → Option (List Char)
  | [] => none
  | a :: r =>
    if a == Char.ofNat 123 then
      let run := r.takeWhile (· ≠ Char.ofNat 125)
      if run ≠ [] && (r.drop run.length).head? == some (Char.ofNat 125) then
        some (a :: run ++ [Char.ofNat 125])
      else jsonSliceSearch r
    else jsonSliceSearch r

/-- Lines 397-402: strip the reply, then narrow it to the regex-located
JSON-ish slice when one exists. -/
def aiResponseText (raw : String) : String :=
  let t := stripL raw.data
  match jsonSliceSearch t with
  | some sl => ⟨sl⟩
  | none => ⟨t⟩

/-- Modelled from the spec: "locating the first balanced brace-delimited
JSON object in the response text" — the slice from the first `{` to the
brace that balances it.  This is the comparison definition for the claim
that the code's regex slice is that balanced object; it is not part of the
source. -/
def specFirstBalancedBraceObject (t : String) : Option String :=
  go1 t.data
where
  go2 : Nat → List Char → Nat → List Char → Option (List Char)
    | 0, _, _, _ => none
    | _ + 1, [], _, _ => none
    | fuel + 1, c :: r, depth, acc =>
      if c == Char.ofNat 123 then go2 fuel r (depth + 1) (c :: acc)
      else if c == Char.ofNat 125 then
        if depth == 1 then some (c :: acc).reverse
        else go2 fuel r (depth - 1) (c :: acc)
      else go2 fuel r depth (c :: acc)
  go1 : List Char → Option String
    | [] => none
    | a :: r =>
      if a == Char.ofNat 123 then
        (go2 (r.length + 1) r 1 [a]).map String.mk
      else go1 r

/-- `extracted['summary'] = v`: Python dict assignment on the decoded
object (replace the entry when the key exists, else append it). -/
def setKey (obj : List (String × String)) (k v : String) :
    List (String × String) :=
  if (obj.lookup k).isSome then
    obj.map fun kv => if kv.1 == k then (k, v) else kv
  else obj ++ [(k, v)]

/-- `extracted.get(k, d)`. -/
def getKeyD (obj : List (String × String)) (k d : String) : String :=
  (obj.lookup k).getD d

/-- `extract_all_info_with_ai(content, headline, url)` (src/app.py lines
325-425) with the model call's outcome and the JSON decoder as parameters.
An exception from the call, or a decode failure, yields the deterministic
fallback; a decoded object is read with per-key defaults, and when
`has_content` is false a fetch-failure note is appended to the summary. -/
def extract_all_info_with_ai
    (jsonLoads : String → Option (List (String × String)))
    (callResult : Except String String)
    (content headline url : String) : ExtractedFields :=
  match callResult with
  | .error _ => fallbackFields headline content
  | .ok raw =>
    match jsonLoads (aiResponseText raw) with
    | none => fallbackFields headline content
    | some extracted =>
      let extracted :=
        if !hasContentB content then
          setKey extracted "summary"
            (getKeyD extracted "summary" ""
              ++ " [Note: Full article content could not be fetched]")
        else extracted
      { company := getKeyD extracted "company" "",
        address := getKeyD extracted "address" "",
        jobs := getKeyD extracted "jobs" "",
        summary := getKeyD extracted "summary" headline }

/-! ## `parse_google_alert_email` (src/app.py lines 145-244)

`BeautifulSoup(html_content, 'html.parser')` is the external HTML parser;
its output — the element tree — is the embedded function's input.
`find_all` returns matching descendants in document (pre-)order, `find`
the first of them. -/

mutual

/-- A parsed HTML node: an element with attributes and children, or text. -/
inductive Node where
  | elem (tag : String) (attrs : List (String × String)) (children : NodeList)
  | text (s : String)

/-- A sequence of sibling nodes (a mutual inductive rather than
`List Node`, so the traversals below are structural and executable). -/
inductive NodeList where
  | nil
  | cons (head : Node) (tail : NodeList)

end

/-- Build a sibling sequence from a list. -/
def NodeList.ofList : List Node → NodeList
  | [] => .nil
  | n :: r => .cons n (NodeList.ofList r)

/-- An attribute value, `None` when absent (`elem.get(name)`). -/
def Node.attr? (k : String) : Node → Option String
  | .elem _ attrs _ => attrs.lookup k
  | .text _ => none

mutual

/-- `n.find_all(...)`: the descendants of `n` satisfying `p`, in document
order (each child before its own descendants). -/
def descendantsMatching (p : Node → Bool) : Node → List Node
  | .text _ => []
  | .elem _ _ cs => descendantsMatchingL p cs

/-- `descendantsMatching` over a forest of siblings: each sibling (when it
matches), then its descendants, then the rest. -/
def descendantsMatchingL (p : Node → Bool) : NodeList → List Node
  | .nil => []
  | .cons c rest =>
    (if p c then [c] else []) ++ descendantsMatching p c
      ++ descendantsMatchingL p rest

end

mutual

/-- `n.stripped_strings`: every descendant text, stripped, skipping those
that strip to nothing, in document order. -/
def strippedStringsOf : Node → List String
  | .text _ => []
  | .elem _ _ cs => strippedStringsL cs

/-- `strippedStringsOf` over a forest of siblings. -/
def strippedStringsL : NodeList → List String
  | .nil => []
  | .cons (.text s) rest =>
    (if stripL s.data = [] then [] else [⟨stripL s.data⟩])
      ++ strippedStringsL rest
  | .cons (.elem _ _ cs) rest => strippedStringsL cs ++ strippedStringsL rest

end

/-- `elem.get_text(strip=True)`: the stripped descendant texts joined. -/
def getTextStrip (n : Node) : String := String.join (strippedStringsOf n)

/-- The alert dictionary built per discovered link. -/
structure Alert where
  headline : String
  url : String
  source : String
  company : String
  address : String
  lead_summary : String
  estimated_jobs : String
deriving Repr, DecidableEq

/-- The noise-skip list of the table strategy (line 165). -/
def tableSkips : List String := ["google.com/alerts", "mailto:", "#", "support.google"]

/-- The noise-skip list of the direct-link fallback (line 212). -/
def linkSkips : List String := ["google.com/alerts", "mailto:", "#"]

/-- `any(skip in href for skip in skips)`. -/
def skipAny (skips : List String) (href : String) : Bool :=
  skips.any fun sk => containsSub sk.data href.data

/-- Is this a `<table>` element? -/
def isTable : Node → Bool
  | .elem tag _ _ => tag == "table"
  | .text _ => false

/-- Is this a `<tr>` element? -/
def isTr : Node → Bool
  | .elem tag _ _ => tag == "tr"
  | .text _ => false

/-- `find('a', href=True)`'s predicate: an anchor carrying an href. -/
def isAnchorHref : Node → Bool
  | .elem tag attrs _ => tag == "a" && (attrs.lookup "href").isSome
  | .text _ => false

/-- A `<font>` or `<span>` element (`row.find_all(['font', 'span'])`). -/
def isFontOrSpan : Node → Bool
  | .elem tag _ _ => tag == "font" || tag == "span"
  | .text _ => false

/-- The source-label test of line 195: `elem.get('color') == '#006621' or
(elem.get('style') and '006621' in elem.get('style', ''))`. -/
def isSourceElem (n : Node) : Bool :=
  n.attr? "color" == some "#006621" ||
    (match n.attr? "style" with
     | some st => st ≠ "" && containsSub "006621".data st.data
     | none => false)

/-- Lines 194-197: the first matching font/span in the row gives the
source text, else the source stays empty. -/
def findSource (row : Node) : String :=
  match (descendantsMatching isFontOrSpan row).filter isSourceElem with
  | [] => ""
  | e :: _ => getTextStrip e

/-- The shared per-link processing of both strategies (lines 162-201 and
210-236): skip noise hrefs, resolve the redirect, join and normalize the
anchor's stripped strings into the headline, and emit the alert only when
the headline is non-empty and longer than 10 characters.  The table
strategy passes its row for the source lookup; the fallback passes none. -/
def processLink (skips : List String) (sourceRow : Option Node) (link : Node) :
    Option Alert :=
  let href := (link.attr? "href").getD ""
  if skipAny skips href then none
  else
    match extract_google_url href with
    | none => none
    | some actualUrl =>
      let headlineText := " ".intercalate (strippedStringsOf link)
      let headlineText := fix_text_spacing headlineText
      let alert : Alert :=
        { headline := ⟨stripL headlineText.data⟩,
          url := actualUrl,
          source := match sourceRow with
                    | some row => findSource row
                    | none => "",
          company := "", address := "", lead_summary := "",
          estimated_jobs := "" }
      if alert.headline ≠ "" && 10 < alert.headline.length then some alert
      else none

/-- The table strategy (lines 155-201): every row of every table, its
first anchor-with-href, processed in document order. -/
def tableAlerts (soup : Node) : List Alert :=
  (descendantsMatching isTable soup).flatMap fun tbl =>
    (descendantsMatching isTr tbl).filterMap fun row =>
      match (descendantsMatching isAnchorHref row).head? with
      | none => none
      | some link => processLink tableSkips (some row) link

/-- The direct-link fallback (lines 205-236): every anchor-with-href in
the document, without the source lookup. -/
def linkAlerts (soup : Node) : List Alert :=
  (descendantsMatching isAnchorHref soup).filterMap fun link =>
    processLink linkSkips none link

/-- The full qualifying-record sequence the parse produces before the
batch cap: the table strategy's records, or the fallback's when the table
strategy found none. -/
def allQualifyingAlerts (soup : Node) (subject : String) : List Alert :=
  let alerts := tableAlerts soup
  if alerts.isEmpty then linkAlerts soup else alerts

/-- `parse_google_alert_email(html_content, subject)` (lines 145-244),
taking the parsed element tree; `subject` is unused by the extraction, as
in the source.  Line 244: `return alerts[:10]`. -/
def parse_google_alert_email (soup : Node) (subject : String) : List Alert :=
  (allQualifyingAlerts soup subject).take 10

/-! ## `send_to_smartsuite` (src/app.py lines 587-648): the payload

The record submission is an HTTP POST; the payload construction of lines
614-632 is the part the claims concern.  `formatted_date` (the parsed or
defaulted date) and `timestamp` (the generated uniqueness suffix) are the
ambient values of lines 604-615. -/

/-- Lines 614-632: the unique title, the fixed field-identifier payload
and the final `{k: v for k, v in payload.items() if v and v != ''}`
cleanup that removes every empty value. -/
def send_to_smartsuite_payload (alert : Alert)
    (formatted_date timestamp : String) : List (String × String) :=
  let base_title : String :=
    ⟨(if alert.company ≠ "" then alert.company else alert.headline).data.take 80⟩
  let unique_title := base_title ++ " - " ++ timestamp
  ([("title", unique_title),
    ("sc373e6626", alert.company),
    ("s46434c9b6", alert.address),
    ("s492934214", ⟨alert.lead_summary.data.take 1000⟩),
    ("sa8ca8dbcb", alert.estimated_jobs),
    ("s8e6e9fe79", alert.url),
    ("s8d5616e3e", formatted_date),
    ("s6e74e1ce5", ⟨alert.source.data.take 100⟩)]).filter
    fun kv => kv.2 ≠ ""

/-! ## Adjacency predicates for the normalization development

`fix_text_spacing`'s substitutions are driven by two- and three-character
windows; these predicates state that no window of a string matches, which
is what each substitution leaves behind and what makes a second pass a
no-op. -/

/-- No two adjacent characters satisfy `bad`. -/
def noAdj (bad : Char → Char → Bool) : List Char → Bool
  | a :: b :: r => !bad a b && noAdj bad (b :: r)
  | _ => true

/-- No three adjacent characters satisfy `bad`. -/
def noAdj3 (bad : Char → Char → Char → Bool) : List Char → Bool
  | a :: b :: c :: r => !bad a b c && noAdj3 bad (b :: c :: r)
  | _ => true

/-- The window of `([a-z])([A-Z])`. -/
def badLowUp (a b : Char) : Bool := isLowerA a && isUpperA b

/-- The window of `([a-zA-Z])([A-Z][a-z])`. -/
def badSplit (a b c : Char) : Bool :=
  isLetterA a && isUpperA b && isLowerA c

/-- The window of `\s\s` (an uncollapsed whitespace pair). -/
def badWW (a b : Char) : Bool := isWS a && isWS b

/-- Every whitespace character is the plain space. -/
def wsIsSpace (l : List Char) : Bool := l.all fun c => !isWS c || c == ' '

/-! ## Sample data for the witnesses -/

/-- One qualifying alert row of the sample email tree. -/
def sampleRow (i : Nat) : Node :=
  .elem "tr" []
    (.ofList [.elem "a" [("href", "https://site.example/art" ++ toString i)]
      (.ofList [.text ("Alert headline number " ++ toString i)])])

/-- A sample alert-email tree holding one table with eleven qualifying
rows. -/
def sampleEmailTree : Node :=
  .elem "html" []
    (.ofList [.elem "table" [] (.ofList ((List.range 11).map sampleRow))])

/-- The first record the sample tree yields. -/
def sampleAlert : Alert :=
  { headline := "Alert headline number 0", url := "https://site.example/art0",
    source := "", company := "", address := "", lead_summary := "",
    estimated_jobs := "" }

end App

/-! # Claim theorems -/

set_option maxRecDepth 20000
set_option maxHeartbeats 2000000

namespace App

/-- C1 (counterexample): on the headline
`"Acme Manufacturing Inc. Expands Facility"` the deterministic company
extractor does not return `"Acme Manufacturing"`: `Manufacturing` is itself
one of the corporate-suffix alternatives, so the non-greedy capture stops
right before it. -/
theorem c1_company_counterexample :
    extract_company_name "Acme Manufacturing Inc. Expands Facility" ≠
      "Acme Manufacturing" := by
  decide

/-- C1 (amended): on that headline `extract_company_name` returns exactly
`"Acme"` — the first accepted match is the lazy capture before the first
corporate-suffix alternative that fits (here `Manufacturing`, which is in
the suffix list), and its length 4 is strictly between 3 and 50. -/
theorem c1_company_acme :
    extract_company_name "Acme Manufacturing Inc. Expands Facility" =
      "Acme" := by
  decide

/-- C2 (code evaluation): on the headline
`"ExampleCo Opens Plant in Dayton, OH"` the deterministic location
extractor returns `"Plant, Indiana"`, not the specified `"Dayton, Ohio"`:
the state table is scanned in insertion order with `re.IGNORECASE`, so the
English word `in` matches Indiana's abbreviation `IN` (with the residue
word `Plant` captured as the city) before Ohio is ever tried. -/
theorem c2_location_returns_plant_indiana :
    extract_location_from_headline "ExampleCo Opens Plant in Dayton, OH" =
      "Plant, Indiana" := by
  decide

/-- C3 (counterexample): the AI field extractor does not decode the first
balanced brace-delimited JSON object of the reply.  On the nested reply
`{"a":{"b":1}}` the code's regex `\{[^}]+\}` stops at the first closing
brace and yields the unbalanced slice `{"a":{"b":1}`, while the first
balanced brace-delimited object is the whole reply. -/
theorem c3_json_slice_counterexample :
    jsonSliceSearch "\x7b\"a\":\x7b\"b\":1\x7d\x7d".data =
        some "\x7b\"a\":\x7b\"b\":1\x7d".data ∧
      specFirstBalancedBraceObject "\x7b\"a\":\x7b\"b\":1\x7d\x7d" =
        some "\x7b\"a\":\x7b\"b\":1\x7d\x7d" ∧
      jsonSliceSearch "\x7b\"a\":\x7b\"b\":1\x7d\x7d".data ≠
        (specFirstBalancedBraceObject "\x7b\"a\":\x7b\"b\":1\x7d\x7d").map
          String.data := by
  refine ⟨by decide, by decide, by decide⟩

/-- C3 (amended): the extractor decodes the slice its regex locates — from
the first `{` through the next following `}` with at least one character
between, not the first *balanced* object — and on every call failure or
decode failure it returns the deterministic-path result (regex company,
location, job count and the template summary) instead of propagating the
failure. -/
theorem c3_ai_extractor_falls_back
    (jsonLoads : String → Option (List (String × String)))
    (callResult : Except String String) (content headline url : String)
    (hfail : ∀ raw, callResult = .ok raw →
      jsonLoads (aiResponseText raw) = none) :
    extract_all_info_with_ai jsonLoads callResult content headline url =
      fallbackFields headline content := by
  cases callResult with
  | error msg => rfl
  | ok raw =>
    have h := hfail raw rfl
    simp only [extract_all_info_with_ai, h]

/-- Witness for C3: a concrete reply whose decode fails lands exactly on
the deterministic fallback. -/
theorem c3_ai_extractor_falls_back_witness :
    extract_all_info_with_ai (fun _ => none) (.ok "no json here")
        "" "HeadlineX" "u" = fallbackFields "HeadlineX" "" :=
  c3_ai_extractor_falls_back (fun _ => none) (.ok "no json here")
    "" "HeadlineX" "u" (fun _ _ => rfl)

/-- C6: Redirect Resolver round-trip — wrapping the percent-encoded target
`https://example.com/a?b=1` in a redirect URL's `url` query parameter and
resolving it yields exactly the target back. -/
theorem c6_redirect_round_trip :
    extract_google_url (redirectWrap "https://example.com/a?b=1") =
      some "https://example.com/a?b=1" := by
  decide

/-- C10: an href that contains the redirect indicator `google.com/url?`
but whose `url` parameter the resolver's regex cannot find yields no URL —
the redirect branch takes precedence, with no fall-through to the
`http`-prefix branch. -/
theorem c10_redirect_branch_precedence (href : String)
    (hred : containsSub "google.com/url?".data href.data = true)
    (hnoparam : urlParamSearch href.data = none) :
    extract_google_url href = none := by
  simp only [extract_google_url, hred, hnoparam, if_true]

/-- Witness for C10: `https://google.com/url?q=abc` begins with `http`,
contains the redirect indicator, has no `url=` parameter, and resolves to
nothing. -/
theorem c10_redirect_branch_precedence_witness :
    extract_google_url "https://google.com/url?q=abc" = none :=
  c10_redirect_branch_precedence "https://google.com/url?q=abc"
    (by decide) (by decide)

/-- C9: the submission payload never carries an empty value — every
mapped field is filtered against emptiness — and a record with no
discovered address yields a payload with no address key (`s46434c9b6`)
at all. -/
theorem c9_payload_omits_empty (alert : Alert)
    (formatted_date timestamp : String) :
    (∀ kv ∈ send_to_smartsuite_payload alert formatted_date timestamp,
        kv.2 ≠ "") ∧
      (alert.address = "" → ∀ v,
        ("s46434c9b6", v) ∉
          send_to_smartsuite_payload alert formatted_date timestamp) := by
  constructor
  · intro kv hkv
    have h := (List.mem_filter.mp hkv).2
    simpa using h
  · intro haddr v hv
    have hmem := List.mem_filter.mp hv
    have hne : v ≠ "" := by simpa using hmem.2
    have hbase := hmem.1
    simp only [List.mem_cons, List.not_mem_nil, or_false, Prod.mk.injEq] at hbase
    rcases hbase with ⟨h, _⟩ | ⟨h, _⟩ | ⟨_, hval⟩ | ⟨h, _⟩ | ⟨h, _⟩ | ⟨h, _⟩
      | ⟨h, _⟩ | ⟨h, _⟩ <;>
      first
      | exact absurd h (by decide)
      | exact hne (hval ▸ haddr)

/-- A string append whose left part is non-empty is non-empty. -/
theorem append_ne_empty_left (a b : String) (ha : a.data ≠ []) :
    a ++ b ≠ "" := by
  intro h
  have hdata : a.data ++ b.data = ([] : List Char) := congrArg String.data h
  exact ha (List.append_eq_nil.mp hdata).1

/-- C7: the Article Fetcher reports success only for a 200 response whose
cleaned text is non-empty and longer than 100 characters; every failed
fetch (exception, non-200 status, or too-short extraction) carries a
non-empty placeholder that starts with the descriptive
`Could not fetch article content`. -/
theorem c7_fetch_success_and_placeholders (url : String) (o : FetchOutcome) :
    ((fetch_article_with_jina url o).success = true →
      ∃ text, o = .resp 200 text ∧ cleanJinaContent text ≠ "" ∧
        100 < (cleanJinaContent text).length) ∧
    ((fetch_article_with_jina url o).success = false →
      (fetch_article_with_jina url o).content ≠ "" ∧
      ∃ rest, (fetch_article_with_jina url o).content =
        "Could not fetch article content" ++ rest) := by
  cases o with
  | exc msg =>
    constructor
    · intro h
      simp [fetch_article_with_jina] at h
    · intro _
      have heq : (fetch_article_with_jina url (.exc msg)).content =
          "Could not fetch article content" ++ (" - Error: " ++ msg) := by
        show "Could not fetch article content - Error: " ++ msg = _
        rw [← String.append_assoc]
        congr 1
      refine ⟨?_, " - Error: " ++ msg, heq⟩
      rw [heq]
      exact append_ne_empty_left _ _ (by decide)
  | resp statusCode text =>
    by_cases hc : (statusCode == 200) = true
    · have h200 : statusCode = 200 := by simpa using hc
      by_cases hcond : (decide (cleanJinaContent text ≠ "")
          && decide (100 < (cleanJinaContent text).length)) = true
      · have hprop := hcond
        simp only [Bool.and_eq_true, decide_eq_true_eq] at hprop
        constructor
        · intro _
          exact ⟨text, by rw [h200], hprop.1, hprop.2⟩
        · intro hfail
          exfalso
          have hs : (fetch_article_with_jina url (.resp statusCode text)).success
              = true := by
            simp only [fetch_article_with_jina, hc, if_true, hcond]
          rw [hs] at hfail
          simp at hfail
      · have hcontent :
            (fetch_article_with_jina url (.resp statusCode text)).content =
              "Could not fetch article content - website may be blocking access." := by
          simp only [fetch_article_with_jina, hc, if_true, hcond,
            Bool.false_eq_true, if_false]
        have hsucc :
            (fetch_article_with_jina url (.resp statusCode text)).success =
              false := by
          simp only [fetch_article_with_jina, hc, if_true, hcond,
            Bool.false_eq_true, if_false]
        constructor
        · intro h
          rw [hsucc] at h
          simp at h
        · intro _
          refine ⟨by rw [hcontent]; decide,
            " - website may be blocking access.", by rw [hcontent]; decide⟩
    · constructor
      · intro hsucc
        simp [fetch_article_with_jina, hc] at hsucc
      · intro _
        have heq : (fetch_article_with_jina url (.resp statusCode text)).content
            = "Could not fetch article content"
              ++ (" - Jina Reader returned error " ++ toString statusCode) := by
          simp only [fetch_article_with_jina, hc, Bool.false_eq_true, if_false]
          rw [← String.append_assoc]
          congr 1
        refine ⟨?_, _, heq⟩
        rw [heq]
        exact append_ne_empty_left _ _ (by decide)

/-- Witness for C7: an exception outcome yields a failed result whose
content is the non-empty descriptive placeholder. -/
theorem c7_fetch_witness :
    (fetch_article_with_jina "https://x.example/a" (.exc "boom")).content ≠ ""
      ∧ ∃ rest,
        (fetch_article_with_jina "https://x.example/a" (.exc "boom")).content =
          "Could not fetch article content" ++ rest :=
  (c7_fetch_success_and_placeholders "https://x.example/a" (.exc "boom")).2
    (by decide)

/-- A link that is emitted carries a headline that passed the guard of
lines 200 and 235: non-empty and longer than 10 characters. -/
theorem processLink_some_headline (skips : List String)
    (sourceRow : Option Node) (link : Node) (a : Alert)
    (h : processLink skips sourceRow link = some a) :
    a.headline ≠ "" ∧ 10 < a.headline.length := by
  unfold processLink at h
  by_cases hskip : skipAny skips ((Node.attr? "href" link).getD "") = true
  · rw [if_pos hskip] at h
    exact Option.noConfusion h
  · rw [if_neg hskip] at h
    cases hurl : extract_google_url ((Node.attr? "href" link).getD "") with
    | none =>
      rw [hurl] at h
      exact Option.noConfusion h
    | some actualUrl =>
      rw [hurl] at h
      dsimp only at h
      split at h
      · rename_i hguard
        obtain rfl := Option.some.inj h
        simpa using hguard
      · exact Option.noConfusion h

/-- C8: every AlertRecord the extractor produces (and hence every record
the orchestrator forwards to the Record Submitter) has a non-empty
headline longer than 10 characters, in the table-row strategy and in the
direct-link fallback alike. -/
theorem c8_headline_invariant (soup : Node) (subject : String) (a : Alert)
    (ha : a ∈ parse_google_alert_email soup subject) :
    a.headline ≠ "" ∧ 10 < a.headline.length := by
  have ha' : a ∈ allQualifyingAlerts soup subject :=
    List.take_subset 10 _ ha
  unfold allQualifyingAlerts at ha'
  dsimp only at ha'
  by_cases hemp : (tableAlerts soup).isEmpty = true
  · rw [if_pos hemp] at ha'
    obtain ⟨link, -, hpl⟩ := List.mem_filterMap.mp ha'
    exact processLink_some_headline _ _ _ _ hpl
  · rw [if_neg hemp] at ha'
    obtain ⟨tbl, -, hrow⟩ := List.mem_flatMap.mp ha'
    obtain ⟨row, -, hf⟩ := List.mem_filterMap.mp hrow
    cases hh : (descendantsMatching isAnchorHref row).head? with
    | none => rw [hh] at hf; exact absurd hf (by simp)
    | some link =>
      rw [hh] at hf
      exact processLink_some_headline _ _ _ _ hf

/-- Witness for C8: a concrete parsed record satisfies the headline
invariant. -/
theorem c8_headline_invariant_witness :
    sampleAlert.headline ≠ "" ∧ 10 < sampleAlert.headline.length :=
  c8_headline_invariant sampleEmailTree "subject" sampleAlert (by decide)

/-- C4: when the email holds more than 10 qualifying anchors, the parse
returns exactly 10 AlertRecords — the first 10 of the qualifying sequence
in the order the scan encounters them. -/
theorem c4_batch_cap (soup : Node) (subject : String)
    (hmany : 10 < (allQualifyingAlerts soup subject).length) :
    parse_google_alert_email soup subject =
        (allQualifyingAlerts soup subject).take 10 ∧
      (parse_google_alert_email soup subject).length = 10 := by
  refine ⟨rfl, ?_⟩
  unfold parse_google_alert_email
  rw [List.length_take]
  omega

/-- Witness for C4: the sample tree holds eleven qualifying anchors and
parses to exactly ten records. -/
theorem c4_batch_cap_witness :
    10 < (allQualifyingAlerts sampleEmailTree "subject").length ∧
      (parse_google_alert_email sampleEmailTree "subject").length = 10 :=
  ⟨by decide, (c4_batch_cap sampleEmailTree "subject" (by decide)).2⟩

/-! ## C5: idempotence of `fix_text_spacing`

The seven substitutions leave a string with no lowercase-uppercase
adjacency, no letter-uppercase-lowercase window, and all whitespace
collapsed to single spaces; on such a string every substitution is the
identity, so a second `fix_text_spacing` changes nothing. -/

/-- ASCII letters are not whitespace. -/
theorem letter_not_ws (c : Char) (h : isLetterA c = true) : isWS c = false := by
  simp only [isLetterA, isLowerA, isUpperA, Bool.or_eq_true, Bool.and_eq_true,
    decide_eq_true_eq] at h
  simp only [isWS, Bool.or_eq_false_iff, beq_eq_false_iff_ne, ne_eq,
    Bool.and_eq_false_iff, decide_eq_false_iff_not]
  omega

/-- A lowercase letter is a letter. -/
theorem lower_letter (c : Char) (h : isLowerA c = true) : isLetterA c = true := by
  simp [isLetterA, h]

/-- An uppercase letter is a letter. -/
theorem upper_letter (c : Char) (h : isUpperA c = true) : isLetterA c = true := by
  simp [isLetterA, h]

/-- An uppercase letter is not lowercase. -/
theorem upper_not_lower (c : Char) (h : isUpperA c = true) : isLowerA c = false := by
  simp only [isUpperA, Bool.and_eq_true, decide_eq_true_eq] at h
  simp only [isLowerA, Bool.and_eq_false_iff, decide_eq_false_iff_not]
  omega

/-- A lowercase letter is not uppercase. -/
theorem lower_not_upper (c : Char) (h : isLowerA c = true) : isUpperA c = false := by
  simp only [isLowerA, Bool.and_eq_true, decide_eq_true_eq] at h
  simp only [isUpperA, Bool.and_eq_false_iff, decide_eq_false_iff_not]
  omega

/-- `noAdj` on a singleton always holds. -/
theorem noAdj_single (bad : Char → Char → Bool) (x : Char) :
    noAdj bad [x] = true := rfl

/-- `noAdj` passes to the tail. -/
theorem noAdj_tail (bad : Char → Char → Bool) (x : Char) (l : List Char)
    (h : noAdj bad (x :: l) = true) : noAdj bad l = true := by
  cases l with
  | nil => rfl
  | cons y t => exact (Bool.and_eq_true .. ▸ h).2

/-- The head window of a `noAdj` list fails `bad`. -/
theorem noAdj_head (bad : Char → Char → Bool) (x y : Char) (t : List Char)
    (h : noAdj bad (x :: y :: t) = true) : bad x y = false := by
  have h1 := (Bool.and_eq_true .. ▸ h).1
  simpa using h1

/-- Extend a `noAdj` list on the left when the new head makes no bad
window with the old head. -/
theorem noAdj_cons_of (bad : Char → Char → Bool) (x : Char) (l : List Char)
    (hhead : ∀ y, l.head? = some y → bad x y = false)
    (hl : noAdj bad l = true) : noAdj bad (x :: l) = true := by
  cases l with
  | nil => rfl
  | cons y t =>
    have hxy := hhead y rfl
    simp only [noAdj, hxy, Bool.not_false, Bool.true_and]
    exact hl

/-- `noAdj3` on lists shorter than three always holds. -/
theorem noAdj3_short (bad : Char → Char → Char → Bool) (l : List Char)
    (h : l.length < 3) : noAdj3 bad l = true := by
  match l with
  | [] => rfl
  | [_] => rfl
  | [_, _] => rfl
  | _ :: _ :: _ :: _ =>
    exfalso
    simp only [List.length_cons] at h
    omega

/-- `noAdj3` passes to the tail. -/
theorem noAdj3_tail (bad : Char → Char → Char → Bool) (x : Char)
    (l : List Char) (h : noAdj3 bad (x :: l) = true) : noAdj3 bad l = true := by
  match l with
  | [] => rfl
  | [_] => rfl
  | y :: z :: t => exact (Bool.and_eq_true .. ▸ h).2

/-- The head window of a `noAdj3` list fails `bad`. -/
theorem noAdj3_head (bad : Char → Char → Char → Bool) (x y z : Char)
    (t : List Char) (h : noAdj3 bad (x :: y :: z :: t) = true) :
    bad x y z = false := by
  have h1 := (Bool.and_eq_true .. ▸ h).1
  simpa using h1

/-- Extend a `noAdj3` list on the left when the new head makes no bad
window with the next two characters. -/
theorem noAdj3_cons_of (bad : Char → Char → Char → Bool) (x : Char)
    (l : List Char)
    (hhead : ∀ y z t, l = y :: z :: t → bad x y z = false)
    (hl : noAdj3 bad l = true) : noAdj3 bad (x :: l) = true := by
  match l with
  | [] => rfl
  | [_] => rfl
  | y :: z :: t =>
    have hxy := hhead y z t rfl
    simp only [noAdj3, hxy, Bool.not_false, Bool.true_and]
    exact hl

/-- A bad window inside a `noAdj` list is impossible, wherever it sits. -/
theorem noAdj_append_elim (bad : Char → Char → Bool) (xs : List Char)
    (a b : Char) (ys : List Char)
    (h : noAdj bad (xs ++ a :: b :: ys) = true) : bad a b = false := by
  induction xs with
  | nil => exact noAdj_head bad a b ys h
  | cons x xs ih =>
    exact ih (noAdj_tail bad x (xs ++ a :: b :: ys) h)

/-- The first substitution never changes the first character. -/
theorem subLowUp_head (l : List Char) : (subLowUp l).head? = l.head? := by
  induction l using subLowUp.induct with
  | case1 => rfl
  | case2 a => rfl
  | case3 a b r hc ih => simp [subLowUp, hc]
  | case4 a b r hc ih => simp [subLowUp, hc]

/-- After the first substitution no lowercase-uppercase window is left. -/
theorem noAdj_subLowUp (l : List Char) :
    noAdj badLowUp (subLowUp l) = true := by
  induction l using subLowUp.induct with
  | case1 => rfl
  | case2 a => rfl
  | case3 a b r hc ih =>
    have hb : isUpperA b = true := (Bool.and_eq_true .. ▸ hc).2
    simp only [subLowUp, hc, if_true]
    refine noAdj_cons_of _ _ _ (fun y hy => ?_) ?_
    · obtain rfl : (' ' : Char) = y := Option.some.inj hy
      have hsp : isUpperA ' ' = false := by decide
      rw [badLowUp, hsp, Bool.and_false]
    · refine noAdj_cons_of _ _ _ (fun y hy => ?_) ?_
      · obtain rfl : b = y := Option.some.inj hy
        have hsp : isLowerA ' ' = false := by decide
        rw [badLowUp, hsp, Bool.false_and]
      · refine noAdj_cons_of _ _ _ (fun y hy => ?_) ih
        rw [badLowUp, upper_not_lower b hb, Bool.false_and]
  | case4 a b r hc ih =>
    simp only [subLowUp, hc, Bool.false_eq_true, if_false]
    refine noAdj_cons_of _ _ _ (fun y hy => ?_) ih
    rw [subLowUp_head (b :: r)] at hy
    obtain rfl : b = y := Option.some.inj hy
    rw [badLowUp]
    exact Bool.eq_false_iff.mpr hc

/-- On a string with no lowercase-uppercase window the first substitution
is the identity. -/
theorem subLowUp_id (l : List Char) (h : noAdj badLowUp l = true) :
    subLowUp l = l := by
  induction l using subLowUp.induct with
  | case1 => rfl
  | case2 a => rfl
  | case3 a b r hc ih =>
    exact absurd (noAdj_head _ _ _ _ h) (by simp [badLowUp, hc])
  | case4 a b r hc ih =>
    simp only [subLowUp, hc, Bool.false_eq_true, if_false]
    rw [ih (noAdj_tail _ _ _ h)]

/-- The second substitution never changes the first character. -/
theorem subWBS_head (l : List Char) :
    (subWordBoundarySplit l).head? = l.head? := by
  induction l using subWordBoundarySplit.induct with
  | case1 => rfl
  | case2 a => rfl
  | case3 a b => rfl
  | case4 a b c r hc ih => simp [subWordBoundarySplit, hc]
  | case5 a b c r hc ih => simp [subWordBoundarySplit, hc]

/-- The second character of the second substitution's output on a list of
two or more: either the inserted space or the original second character. -/
theorem subWBS_second (b c : Char) (r : List Char) :
    (subWordBoundarySplit (b :: c :: r)).tail.head? = some ' ' ∨
      (subWordBoundarySplit (b :: c :: r)).tail.head? = some c := by
  match r with
  | [] => right; rfl
  | r0 :: r' =>
    by_cases hc : (isLetterA b && isUpperA c && isLowerA r0) = true
    · left
      simp [subWordBoundarySplit, hc]
    · right
      simp only [subWordBoundarySplit, hc, Bool.false_eq_true, if_false]
      simpa using subWBS_head (c :: r0 :: r')

/-- The second substitution preserves the absence of lowercase-uppercase
windows. -/
theorem noAdj_subWBS (l : List Char) (h : noAdj badLowUp l = true) :
    noAdj badLowUp (subWordBoundarySplit l) = true := by
  induction l using subWordBoundarySplit.induct with
  | case1 => rfl
  | case2 a => rfl
  | case3 a b => exact h
  | case4 a b c r hc ih =>
    obtain ⟨⟨hab, hb⟩, hcl⟩ :
        (isLetterA a = true ∧ isUpperA b = true) ∧ isLowerA c = true := by
      simpa [Bool.and_eq_true] using hc
    simp only [subWordBoundarySplit, hc, if_true]
    have hup : isUpperA ' ' = false := by decide
    have hlo : isLowerA ' ' = false := by decide
    refine noAdj_cons_of _ _ _ (fun y hy => ?_) ?_
    · obtain rfl : (' ' : Char) = y := Option.some.inj hy
      rw [badLowUp, hup, Bool.and_false]
    · refine noAdj_cons_of _ _ _ (fun y hy => ?_) ?_
      · obtain rfl : b = y := Option.some.inj hy
        rw [badLowUp, hlo, Bool.false_and]
      · refine noAdj_cons_of _ _ _ (fun y hy => ?_) ?_
        · obtain rfl : c = y := Option.some.inj hy
          rw [badLowUp, upper_not_lower b hb, Bool.false_and]
        · have hcr : noAdj badLowUp (c :: r) = true :=
            noAdj_tail _ _ _ (noAdj_tail _ _ _ h)
          refine noAdj_cons_of _ _ _ (fun y hy => ?_)
            (ih (noAdj_tail _ _ _ hcr))
          rw [subWBS_head r] at hy
          cases r with
          | nil => exact absurd hy (by simp)
          | cons r0 r2 =>
            obtain rfl : r0 = y := Option.some.inj hy
            exact noAdj_head _ _ _ _ hcr
  | case5 a b c r hc ih =>
    simp only [subWordBoundarySplit, hc, Bool.false_eq_true, if_false]
    refine noAdj_cons_of _ _ _ (fun y hy => ?_) (ih (noAdj_tail _ _ _ h))
    rw [subWBS_head (b :: c :: r)] at hy
    obtain rfl : b = y := Option.some.inj hy
    exact noAdj_head _ _ _ _ h

/-- After the second substitution (on a string with no lowercase-uppercase
window, as the first substitution leaves it) no letter-uppercase-lowercase
window is left either. -/
theorem noAdj3_subWBS (l : List Char) (h : noAdj badLowUp l = true) :
    noAdj3 badSplit (subWordBoundarySplit l) = true := by
  induction l using subWordBoundarySplit.induct with
  | case1 => rfl
  | case2 a => rfl
  | case3 a b => rfl
  | case4 a b c r hc ih =>
    obtain ⟨⟨hab, hb⟩, hcl⟩ :
        (isLetterA a = true ∧ isUpperA b = true) ∧ isLowerA c = true := by
      simpa [Bool.and_eq_true] using hc
    simp only [subWordBoundarySplit, hc, if_true]
    have hcr : noAdj badLowUp (c :: r) = true :=
      noAdj_tail _ _ _ (noAdj_tail _ _ _ h)
    have hY : noAdj3 badSplit (subWordBoundarySplit r) = true :=
      ih (noAdj_tail _ _ _ hcr)
    have h1 : noAdj3 badSplit (c :: subWordBoundarySplit r) = true := by
      refine noAdj3_cons_of _ _ _ (fun y z t hY2 => ?_) hY
      have hy : r.head? = some y := by
        rw [← subWBS_head r, hY2]; rfl
      cases r with
      | nil => exact absurd hy (by simp)
      | cons r0 r2 =>
        have heq : r0 = y := Option.some.inj hy
        have hpair : badLowUp c r0 = false := noAdj_head _ _ _ _ hcr
        have hyup : isUpperA r0 = false := by
          rw [badLowUp, hcl, Bool.true_and] at hpair
          exact hpair
        rw [← heq, badSplit, hyup, Bool.and_false, Bool.false_and]
    have h2 : noAdj3 badSplit (b :: c :: subWordBoundarySplit r) = true := by
      refine noAdj3_cons_of _ _ _ (fun y z t hY2 => ?_) h1
      obtain rfl : c = y := by
        have := congrArg List.head? hY2
        exact Option.some.inj (by simpa using this)
      rw [badSplit, lower_not_upper c hcl, Bool.and_false, Bool.false_and]
    have h3 : noAdj3 badSplit (' ' :: b :: c :: subWordBoundarySplit r)
        = true := by
      refine noAdj3_cons_of _ _ _ (fun y z t hY2 => ?_) h2
      have hsp : isLetterA ' ' = false := by decide
      rw [badSplit, hsp, Bool.false_and, Bool.false_and]
    refine noAdj3_cons_of _ _ _ (fun y z t hY2 => ?_) h3
    obtain rfl : (' ' : Char) = y := by
      have := congrArg List.head? hY2
      exact Option.some.inj (by simpa using this)
    have hsp : isUpperA ' ' = false := by decide
    rw [badSplit, hsp, Bool.and_false, Bool.false_and]
  | case5 a b c r hc ih =>
    simp only [subWordBoundarySplit, hc, Bool.false_eq_true, if_false]
    refine noAdj3_cons_of _ _ _ (fun y z t hY2 => ?_)
      (ih (noAdj_tail _ _ _ h))
    obtain rfl : b = y := by
      have hhd := congrArg List.head? hY2
      rw [subWBS_head (b :: c :: r)] at hhd
      exact Option.some.inj (by simpa using hhd)
    rcases subWBS_second b c r with hsec | hsec <;>
      rw [hY2] at hsec <;>
      simp only [List.tail_cons, List.head?_cons, Option.some.injEq] at hsec <;>
      subst hsec
    · have hsp : isLowerA ' ' = false := by decide
      rw [badSplit, hsp, Bool.and_false]
    · rw [badSplit]
      exact Bool.eq_false_iff.mpr hc

/-- On a string with no letter-uppercase-lowercase window the second
substitution is the identity. -/
theorem subWBS_id (l : List Char) (h : noAdj3 badSplit l = true) :
    subWordBoundarySplit l = l := by
  induction l using subWordBoundarySplit.induct with
  | case1 => rfl
  | case2 a => rfl
  | case3 a b => rfl
  | case4 a b c r hc ih =>
    have := noAdj3_head badSplit a b c r h
    rw [badSplit] at this
    exact absurd this (by simp [hc])
  | case5 a b c r hc ih =>
    simp only [subWordBoundarySplit, hc, Bool.false_eq_true, if_false]
    rw [ih (noAdj3_tail _ _ _ h)]

/-- A stem substitution whose stem ends in a lowercase letter is the
identity on a string with no lowercase-uppercase window: a match would
need the stem's last letter to abut an uppercase letter. -/
theorem subStemGo_id (stem0 : List Char) (c : Char)
    (hc : isLowerA c = true) (fuel : Nat) (l : List Char)
    (h : noAdj badLowUp l = true) :
    subStemGo (stem0 ++ [c]) fuel l = l := by
  induction fuel generalizing l with
  | zero => rfl
  | succ fuel ih =>
    cases l with
    | nil => rfl
    | cons a r =>
      by_cases hpre : (stem0 ++ [c]).isPrefixOf (a :: r) = true
      · obtain ⟨t, ht⟩ : ∃ t, stem0 ++ [c] ++ t = a :: r :=
          List.isPrefixOf_iff_prefix.mp hpre
        cases hdrop : (a :: r).drop (stem0 ++ [c]).length with
        | nil =>
          simp only [subStemGo, hpre, if_true, hdrop]
          rw [ih r (noAdj_tail _ _ _ h)]
        | cons u rest =>
          have htu : t = u :: rest := by
            have := congrArg (List.drop (stem0 ++ [c]).length) ht
            rwa [List.drop_left, hdrop] at this
          by_cases hu : isUpperA u = true
          · exfalso
            have hwin : badLowUp c u = false := by
              refine noAdj_append_elim badLowUp stem0 c u (rest ++ []) ?_
              have hshape : a :: r = stem0 ++ c :: u :: (rest ++ []) := by
                rw [List.append_nil]
                rw [← ht, htu]
                simp
              rw [← hshape]
              exact h
            rw [badLowUp, hc, Bool.true_and, hu] at hwin
            exact Bool.true_eq_false ▸ hwin
          · simp only [subStemGo, hpre, if_true, hdrop, hu,
              Bool.false_eq_true, if_false]
            rw [ih r (noAdj_tail _ _ _ h)]
      · simp only [subStemGo, hpre, Bool.false_eq_true, if_false]
        rw [ih r (noAdj_tail _ _ _ h)]

/-- The head of the collapsed string: the first character, with a leading
whitespace run already turned into the single space. -/
theorem collapseWS_head (b : Char) (r : List Char) :
    (collapseWS (b :: r)).head? = some (if isWS b then ' ' else b) := by
  induction r generalizing b with
  | nil =>
    by_cases hb : isWS b = true
    · simp [collapseWS, hb]
    · simp only [Bool.not_eq_true] at hb
      simp [collapseWS, hb]
  | cons c r ih =>
    by_cases hbc : (isWS b && isWS c) = true
    · obtain ⟨hb, hcw⟩ := Bool.and_eq_true .. ▸ hbc
      rw [show collapseWS (b :: c :: r) = collapseWS (c :: r) by
        simp [collapseWS, hbc]]
      rw [ih c]
      simp [hb, hcw]
    · simp [collapseWS, hbc]

/-- Collapsing preserves the absence of any bad two-character window whose
两 characters are never whitespace. -/
theorem noAdj_collapseWS (bad : Char → Char → Bool)
    (hsupp : ∀ a b, bad a b = true → isWS a = false ∧ isWS b = false)
    (l : List Char) (h : noAdj bad l = true) :
    noAdj bad (collapseWS l) = true := by
  induction l using collapseWS.induct with
  | case1 => rfl
  | case2 a ha => simp [collapseWS, ha, noAdj]
  | case3 a ha =>
    simp only [Bool.not_eq_true] at ha
    simp [collapseWS, ha, noAdj]
  | case4 a b r hc ih =>
    rw [show collapseWS (a :: b :: r) = collapseWS (b :: r) by
      simp [collapseWS, hc]]
    exact ih (noAdj_tail _ _ _ h)
  | case5 a b r hc ih =>
    rw [show collapseWS (a :: b :: r) =
        (if isWS a then ' ' else a) :: collapseWS (b :: r) by
      simp [collapseWS, hc]]
    refine noAdj_cons_of _ _ _ (fun y hy => ?_) (ih (noAdj_tail _ _ _ h))
    rw [collapseWS_head b r] at hy
    have hyeq : (if isWS b then ' ' else b) = y := Option.some.inj hy
    rw [← hyeq]
    by_cases ha : isWS a = true
    · rw [if_pos ha]
      cases hbad : bad ' ' (if isWS b then ' ' else b) with
      | false => rfl
      | true =>
        have := (hsupp _ _ hbad).1
        exact absurd this (by decide)
    · rw [if_neg ha]
      by_cases hb : isWS b = true
      · rw [if_pos hb]
        cases hbad : bad a ' ' with
        | false => rfl
        | true =>
          have := (hsupp _ _ hbad).2
          exact absurd this (by decide)
      · rw [if_neg hb]
        exact noAdj_head _ _ _ _ h

/-- Collapsing preserves the absence of any bad three-character window
whose characters are never whitespace: collapsing drops only whitespace
characters inside runs, and a run always leaves one space between the
surrounding non-whitespace characters. -/
theorem noAdj3_collapseWS (bad : Char → Char → Char → Bool)
    (hsupp : ∀ a b c, bad a b c = true →
      isWS a = false ∧ isWS b = false ∧ isWS c = false)
    (l : List Char) (h : noAdj3 bad l = true) :
    noAdj3 bad (collapseWS l) = true := by
  have hnotws : ∀ (x y z : Char), isWS y = true → bad x y z = false := by
    intro x y z hy
    cases hbad : bad x y z with
    | false => rfl
    | true => exact absurd (hsupp _ _ _ hbad).2.1 (by simp [hy])
  have hnotws3 : ∀ (x y z : Char), isWS z = true → bad x y z = false := by
    intro x y z hz
    cases hbad : bad x y z with
    | false => rfl
    | true => exact absurd (hsupp _ _ _ hbad).2.2 (by simp [hz])
  have hnotws1 : ∀ (x y z : Char), isWS x = true → bad x y z = false := by
    intro x y z hx
    cases hbad : bad x y z with
    | false => rfl
    | true => exact absurd (hsupp _ _ _ hbad).1 (by simp [hx])
  induction l using collapseWS.induct with
  | case1 => rfl
  | case2 a ha => simp [collapseWS, ha, noAdj3]
  | case3 a ha =>
    simp only [Bool.not_eq_true] at ha
    simp [collapseWS, ha, noAdj3]
  | case4 a b r hc ih =>
    rw [show collapseWS (a :: b :: r) = collapseWS (b :: r) by
      simp [collapseWS, hc]]
    exact ih (noAdj3_tail _ _ _ h)
  | case5 a b r hc ih =>
    rw [show collapseWS (a :: b :: r) =
        (if isWS a then ' ' else a) :: collapseWS (b :: r) by
      simp [collapseWS, hc]]
    refine noAdj3_cons_of _ _ _ (fun y z t hY2 => ?_)
      (ih (noAdj3_tail _ _ _ h))
    have hy : (if isWS b then ' ' else b) = y := by
      have hhd := collapseWS_head b r
      rw [hY2] at hhd
      simp only [List.head?_cons, Option.some.injEq] at hhd
      exact hhd.symm
    by_cases ha : isWS a = true
    · rw [if_pos ha]
      exact hnotws1 _ _ _ (by decide)
    · rw [if_neg ha]
      by_cases hb : isWS b = true
      · rw [if_pos hb] at hy
        rw [← hy]
        exact hnotws _ _ _ (by decide)
      · rw [if_neg hb] at hy
        cases r with
        | nil =>
          rw [show collapseWS [b] = [b] by simp [collapseWS, hb]] at hY2
          exact absurd (congrArg List.length hY2) (by simp)
        | cons c r2 =>
          have hbf : isWS b = false := Bool.eq_false_iff.mpr hb
          have hbc2 : (isWS b && isWS c) = false := by
            rw [hbf, Bool.false_and]
          rw [show collapseWS (b :: c :: r2) =
              (if isWS b then ' ' else b) :: collapseWS (c :: r2) by
            simp [collapseWS, hbc2], if_neg hb] at hY2
          have hz : (if isWS c then ' ' else c) = z := by
            have hh := collapseWS_head c r2
            have ht : collapseWS (c :: r2) = z :: t := (List.cons.inj hY2).2
            rw [ht] at hh
            simp only [List.head?_cons, Option.some.injEq] at hh
            exact hh.symm
          by_cases hcw : isWS c = true
          · rw [if_pos hcw] at hz
            rw [← hz, ← hy]
            exact hnotws3 _ _ _ (by decide)
          · rw [if_neg hcw] at hz
            rw [← hz, ← hy]
            exact noAdj3_head _ _ _ _ _ h

/-- The collapsed string has no adjacent whitespace pair. -/
theorem noWW_collapseWS (l : List Char) :
    noAdj badWW (collapseWS l) = true := by
  induction l using collapseWS.induct with
  | case1 => rfl
  | case2 a ha => simp [collapseWS, ha, noAdj]
  | case3 a ha =>
    simp only [Bool.not_eq_true] at ha
    simp [collapseWS, ha, noAdj]
  | case4 a b r hc ih =>
    rw [show collapseWS (a :: b :: r) = collapseWS (b :: r) by
      simp [collapseWS, hc]]
    exact ih
  | case5 a b r hc ih =>
    rw [show collapseWS (a :: b :: r) =
        (if isWS a then ' ' else a) :: collapseWS (b :: r) by
      simp [collapseWS, hc]]
    refine noAdj_cons_of _ _ _ (fun y hy => ?_) ih
    rw [collapseWS_head b r] at hy
    have hyeq : (if isWS b then ' ' else b) = y := Option.some.inj hy
    rw [← hyeq]
    rcases Bool.and_eq_false_iff.mp (Bool.eq_false_iff.mpr hc) with ha | hb
    · simp [badWW, ha]
    · simp [badWW, hb]

/-- Every whitespace character of the collapsed string is a plain
space. -/
theorem wsIsSpace_collapseWS (l : List Char) :
    wsIsSpace (collapseWS l) = true := by
  induction l using collapseWS.induct with
  | case1 => rfl
  | case2 a ha => simp [collapseWS, ha, wsIsSpace]
  | case3 a ha =>
    simp only [Bool.not_eq_true] at ha
    simp [collapseWS, ha, wsIsSpace]
  | case4 a b r hc ih =>
    rw [show collapseWS (a :: b :: r) = collapseWS (b :: r) by
      simp [collapseWS, hc]]
    exact ih
  | case5 a b r hc ih =>
    rw [show collapseWS (a :: b :: r) =
        (if isWS a then ' ' else a) :: collapseWS (b :: r) by
      simp [collapseWS, hc]]
    rw [wsIsSpace, List.all_cons]
    refine Bool.and_eq_true .. ▸ ⟨?_, ih⟩
    by_cases ha : isWS a = true
    · rw [if_pos ha]
      decide
    · have haf : isWS a = false := Bool.eq_false_iff.mpr ha
      rw [if_neg ha, haf]
      simp

/-- On an already collapsed string (no adjacent whitespace, all
whitespace plain spaces) the collapse is the identity. -/
theorem collapseWS_id (l : List Char) (hww : noAdj badWW l = true)
    (hsp : wsIsSpace l = true) : collapseWS l = l := by
  induction l using collapseWS.induct with
  | case1 => rfl
  | case2 a ha =>
    have haeq : a = ' ' := by simpa [wsIsSpace, ha] using hsp
    simp [collapseWS, ha, haeq]
  | case3 a ha =>
    simp only [Bool.not_eq_true] at ha
    simp [collapseWS, ha]
  | case4 a b r hc ih =>
    exfalso
    have hpair := noAdj_head _ _ _ _ hww
    rw [badWW] at hpair
    exact absurd hpair (by simp [hc])
  | case5 a b r hc ih =>
    rw [show collapseWS (a :: b :: r) =
        (if isWS a then ' ' else a) :: collapseWS (b :: r) by
      simp [collapseWS, hc]]
    have hsp2 := hsp
    rw [wsIsSpace, List.all_cons, Bool.and_eq_true] at hsp2
    obtain ⟨hspa, hsprest⟩ := hsp2
    have htail : collapseWS (b :: r) = b :: r :=
      ih (noAdj_tail _ _ _ hww) (by rw [wsIsSpace]; exact hsprest)
    rw [htail]
    by_cases ha : isWS a = true
    · have haeq : a = ' ' := by simpa [ha] using hspa
      rw [if_pos ha, haeq]
    · rw [if_neg ha]

/-- The lowercase-uppercase window only involves non-whitespace
characters. -/
theorem badLowUp_support (a b : Char) (h : badLowUp a b = true) :
    isWS a = false ∧ isWS b = false := by
  obtain ⟨ha, hb⟩ : isLowerA a = true ∧ isUpperA b = true := by
    simpa [badLowUp, Bool.and_eq_true] using h
  exact ⟨letter_not_ws a (lower_letter a ha),
    letter_not_ws b (upper_letter b hb)⟩

/-- The letter-uppercase-lowercase window only involves non-whitespace
characters. -/
theorem badSplit_support (a b c : Char) (h : badSplit a b c = true) :
    isWS a = false ∧ isWS b = false ∧ isWS c = false := by
  obtain ⟨⟨ha, hb⟩, hcl⟩ :
      (isLetterA a = true ∧ isUpperA b = true) ∧ isLowerA c = true := by
    simpa [badSplit, Bool.and_eq_true] using h
  exact ⟨letter_not_ws a ha, letter_not_ws b (upper_letter b hb),
    letter_not_ws c (lower_letter c hcl)⟩

/-- On a string with no lowercase-uppercase window the five stem
substitutions are the identity: each stem ends in a lowercase letter,
which a match would place right before an uppercase letter. -/
theorem stems_id (x : List Char) (hx : noAdj badLowUp x = true) :
    subStem "Manufacturing".data
      (subStem "Million".data
        (subStem "Announces".data
          (subStem "Expands".data
            (subStem "Company".data x)))) = x := by
  have h1 : subStem "Company".data x = x := by
    rw [show "Company".data = "Compan".data ++ ['y'] from by decide, subStem,
      subStemGo_id _ _ (by decide) _ _ hx]
  have h2 : subStem "Expands".data x = x := by
    rw [show "Expands".data = "Expand".data ++ ['s'] from by decide, subStem,
      subStemGo_id _ _ (by decide) _ _ hx]
  have h3 : subStem "Announces".data x = x := by
    rw [show "Announces".data = "Announce".data ++ ['s'] from by decide,
      subStem, subStemGo_id _ _ (by decide) _ _ hx]
  have h4 : subStem "Million".data x = x := by
    rw [show "Million".data = "Millio".data ++ ['n'] from by decide, subStem,
      subStemGo_id _ _ (by decide) _ _ hx]
  have h5 : subStem "Manufacturing".data x = x := by
    rw [show "Manufacturing".data = "Manufacturin".data ++ ['g'] from by
      decide, subStem, subStemGo_id _ _ (by decide) _ _ hx]
  rw [h1, h2, h3, h4, h5]

/-- `fix_text_spacing` on character lists is idempotent. -/
theorem fixTextSpacingL_idem (l : List Char) :
    fixTextSpacingL (fixTextSpacingL l) = fixTextSpacingL l := by
  have hm_noLU : noAdj badLowUp (subWordBoundarySplit (subLowUp l)) = true :=
    noAdj_subWBS _ (noAdj_subLowUp l)
  have hm_noT : noAdj3 badSplit (subWordBoundarySplit (subLowUp l)) = true :=
    noAdj3_subWBS _ (noAdj_subLowUp l)
  have hfix : fixTextSpacingL l =
      collapseWS (subWordBoundarySplit (subLowUp l)) := by
    rw [fixTextSpacingL, stems_id _ hm_noLU]
  have hu_noLU : noAdj badLowUp
      (collapseWS (subWordBoundarySplit (subLowUp l))) = true :=
    noAdj_collapseWS badLowUp badLowUp_support _ hm_noLU
  have hu_noT : noAdj3 badSplit
      (collapseWS (subWordBoundarySplit (subLowUp l))) = true :=
    noAdj3_collapseWS badSplit badSplit_support _ hm_noT
  have hu_ww := noWW_collapseWS (subWordBoundarySplit (subLowUp l))
  have hu_sp := wsIsSpace_collapseWS (subWordBoundarySplit (subLowUp l))
  rw [hfix, fixTextSpacingL, subLowUp_id _ hu_noLU, subWBS_id _ hu_noT,
    stems_id _ hu_noLU, collapseWS_id _ hu_ww hu_sp]

/-- C5: headline normalization is idempotent — for every string `s`,
`fix_text_spacing (fix_text_spacing s) = fix_text_spacing s`.  After one
pass no lowercase-uppercase window, no letter-uppercase-lowercase window
and no uncollapsed whitespace remains, and each of the seven substitutions
is the identity on such a string. -/
theorem c5_fix_text_spacing_idempotent (s : String) :
    fix_text_spacing (fix_text_spacing s) = fix_text_spacing s := by
  unfold fix_text_spacing
  exact congrArg String.mk (fixTextSpacingL_idem s.data)

end App
